import Mathlib

/-!
Verification of the audio-overlay pipeline of BoltAuto/overlay_audio_API.

The repository contains two variants of the overlay pipeline:
* `src/overlay_audio.py` — loops the background music to cover the speech,
  mixes speech onto the music, then truncates (namespace `OverlayAudio`);
* `src/main.py` — pads the speech with leading silence, mixes the music onto
  the padded speech, then appends a tail slice of the music
  (namespace `MainPy`).

A PCM buffer (pydub `AudioSegment`) is modelled as a list of rational
amplitudes, one sample per millisecond, following the spec's data model
(ordered sequence of samples addressed by millisecond offset; slicing,
concatenation, positional additive mixing, gain scaling, all with value
semantics).  Decibel gains are represented by the multiplicative amplitude
factor they denote (the dB-to-factor conversion 10^(db/20) lives in the
external codec library and always yields a positive factor).
-/

/-- A decoded PCM buffer: one rational amplitude sample per millisecond. -/
abbrev AudioSeg := List ℚ

/-- Modelled from the spec: `AudioSegment.silent(duration)` — `n` milliseconds
of zero samples. -/
def silent (n : ℕ) : AudioSeg := List.replicate n 0

/-- Modelled from the spec: gain scaling, multiplying every sample amplitude by
the factor `g` (pydub `apply_gain` / `seg + db`, with `g` the factor
`10^(db/20)` supplied by the codec layer). -/
def applyGain (g : ℚ) (a : AudioSeg) : AudioSeg := a.map (fun x => x * g)

/-- Peak absolute amplitude of a buffer (0 for the empty buffer). -/
def peak (a : AudioSeg) : ℚ := a.foldr (fun x r => max |x| r) 0

/-- Modelled from the spec: pydub `normalize()` — scale the buffer so that its
peak reaches the reference level (taken as 1); a silent buffer is unchanged. -/
def normalizeSeg (a : AudioSeg) : AudioSeg :=
  if peak a = 0 then a else applyGain (1 / peak a) a

/-- Modelled from the spec: Python/pydub millisecond slicing `a[s:e]` —
negative bounds count from the end, bounds are clamped to the buffer. -/
def pySliceQ (a : AudioSeg) (s e : ℚ) : AudioSeg :=
  let n : ℤ := a.length
  let s1 : ℤ := if s < 0 then max (n + ⌊s⌋) 0 else min ⌊s⌋ n
  let e1 : ℤ := if e < 0 then max (n + ⌊e⌋) 0 else min ⌊e⌋ n
  (a.drop s1.toNat).take (e1 - s1).toNat

/-- The end bound of the trims in both variants, mirroring the Python ternary
`end*1000 if end else len(buffer)`: `None` and `0` are both falsy, so they
yield the full buffer length (in milliseconds). -/
def pyEndBound (a : AudioSeg) : Option ℚ → ℚ
  | none => (a.length : ℚ)
  | some e => if e = 0 then (a.length : ℚ) else e * 1000

/-- Modelled from the spec: pydub `overlay(seg, position)` — positional
additive mix `result[t] = base[t] + over[t - pos]` over the support of `over`,
truncated to the length of `base`. -/
def overlayAt (base over : AudioSeg) (pos : ℕ) : AudioSeg :=
  List.zipWith (fun x y => x + y) base (silent pos ++ over ++ silent base.length)

/-- Modelled from the spec: pydub `fade_in(d)` — an amplitude ramp over the
first `d` milliseconds (clamped to the buffer), leaving the rest unchanged. -/
def fadeIn (d : ℕ) (a : AudioSeg) : AudioSeg :=
  List.zipWith (fun x r => x * r) a
    ((List.range a.length).map (fun i => if i < d then ((i : ℚ) + 1) / d else 1))

/-- Modelled from the spec: pydub `fade_out(d)` — an amplitude ramp over the
last `d` milliseconds (clamped to the buffer), leaving the rest unchanged. -/
def fadeOut (d : ℕ) (a : AudioSeg) : AudioSeg :=
  List.zipWith (fun x r => x * r) a
    ((List.range a.length).map
      (fun i => if a.length - d ≤ i then ((a.length - i : ℕ) : ℚ) / d else 1))

/-- `apply_fades` (identical in `src/overlay_audio.py` lines 17-25 and
`src/main.py` lines 241-259): each fade is applied only when its duration,
given in seconds, is positive. -/
def apply_fades (a : AudioSeg) (fade_in_duration fade_out_duration : ℕ) : AudioSeg :=
  let a := if fade_in_duration > 0 then fadeIn (fade_in_duration * 1000) a else a
  if fade_out_duration > 0 then fadeOut (fade_out_duration * 1000) a else a

/-- Sample of a buffer at millisecond `i` (0 outside the buffer). -/
def sampleAt (a : AudioSeg) (i : ℕ) : ℚ := a.getD i 0

/-- `music * k` in Python: the buffer repeated `k` times. -/
def repeatSeg (a : AudioSeg) (k : ℕ) : AudioSeg := (List.replicate k a).flatten

/-- The multiplicative coefficient that the fade-in stage of `apply_fades`
contributes at millisecond `i`, for a fade-in of `fi` seconds: the ramp value
inside the ramp window, and `1` when the fade is off (`fi = 0`) or `i` lies
past the window. -/
def fadeInCoeff (fi i : ℕ) : ℚ :=
  if 0 < fi ∧ i < fi * 1000 then ((i : ℚ) + 1) / ((fi * 1000 : ℕ) : ℚ) else 1

/-- The multiplicative coefficient that the fade-out stage of `apply_fades`
contributes at millisecond `i` of a buffer of length `n`, for a fade-out of
`fo` seconds: the ramp value inside the final window, and `1` when the fade is
off or `i` lies before the window. -/
def fadeOutCoeff (fo n i : ℕ) : ℚ :=
  if 0 < fo ∧ n - fo * 1000 ≤ i then ((n - i : ℕ) : ℚ) / ((fo * 1000 : ℕ) : ℚ) else 1

namespace OverlayAudio

/-- `adjust_background_music` from `src/overlay_audio.py` lines 5-15: the
speech is normalized and the music is gain-adjusted. -/
def adjust_background_music (speech music : AudioSeg) (music_volume_adjustment : ℚ) :
    AudioSeg × AudioSeg :=
  (normalizeSeg speech, applyGain music_volume_adjustment music)

/-- Lines 52-53 of `src/overlay_audio.py`:
`music = (music * (len(speech) // len(music) + 1))[:len(speech)]`, executed
when the music is shorter than the speech.  When the music is empty the Python
expression `len(speech) // len(music)` raises `ZeroDivisionError`, modelled by
`none`. -/
def loopToCover (speech music : AudioSeg) : Option AudioSeg :=
  if music.length < speech.length then
    if music.length = 0 then none
    else some ((repeatSeg music (speech.length / music.length + 1)).take speech.length)
  else some music

/-- `overlay_audio` from `src/overlay_audio.py` lines 27-64 (the pure mixing
pipeline; file loading and MP3 export are the codec collaborator's job).
Trim seconds are rationals, the remaining durations are natural numbers of
seconds as in the source signature. -/
def overlay_audio (speech music : AudioSeg) (music_volume_adjustment : ℚ)
    (speech_start : ℚ) (speech_end : Option ℚ) (music_start : ℚ) (music_end : Option ℚ)
    (speech_overlay_start music_overlay_start : ℕ)
    (music_continue_after_speech fade_in_duration fade_out_duration : ℕ) :
    Option AudioSeg :=
  let speech1 := pySliceQ speech (speech_start * 1000) (pyEndBound speech speech_end)
  let music1 := pySliceQ music (music_start * 1000) (pyEndBound music music_end)
  let sm := adjust_background_music speech1 music1 music_volume_adjustment
  let speech2 := sm.1
  let music2 := sm.2
  let music3 := if music_overlay_start > 0
    then silent (music_overlay_start * 1000) ++ music2 else music2
  let speech3 := if speech_overlay_start > 0
    then silent (speech_overlay_start * 1000) ++ speech2 else speech2
  (loopToCover speech3 music3).map (fun music4 =>
    let music5 := if music4.length < speech3.length
      then music4 ++ silent (speech3.length - music4.length) else music4
    let combined_duration := speech3.length + music_continue_after_speech * 1000
    let combined := overlayAt music5 speech3 (speech_overlay_start * 1000)
    let combined2 := combined.take combined_duration
    apply_fades combined2 fade_in_duration fade_out_duration)

end OverlayAudio

namespace MainPy

/-- `adjust_background_music` from `src/main.py` lines 226-239: only the music
is changed (`music + music_volume_adjustment`); the speech argument is read but
never modified, exactly as in the source. -/
def adjust_background_music (speech music : AudioSeg) (music_volume_adjustment : ℚ) :
    AudioSeg :=
  applyGain music_volume_adjustment music

/-- `overlay_audio` from `src/main.py` lines 261-352 (the pure mixing part).
The speech is padded with leading silence, the gain-adjusted music is overlaid
onto it at `speech_overlay_start`, and when requested the slice of the music
that immediately follows the mixed region is appended.  `music_overlay_start`
is a parameter of the source function but is never used by it. -/
def overlay_audio (speech music : AudioSeg) (music_volume_adjustment : ℚ)
    (speech_start : ℚ) (speech_end : Option ℚ) (music_start : ℚ) (music_end : Option ℚ)
    (speech_overlay_start music_overlay_start : ℕ)
    (music_continue_after_speech fade_in_duration fade_out_duration : ℕ) :
    AudioSeg :=
  let speech1 := pySliceQ speech (speech_start * 1000) (pyEndBound speech speech_end)
  let music1 := pySliceQ music (music_start * 1000) (pyEndBound music music_end)
  let adjusted_music := adjust_background_music speech1 music1 music_volume_adjustment
  let silence := silent (speech_overlay_start * 1000)
  let result := silence ++ speech1
  let music_position := speech_overlay_start * 1000
  let result2 := overlayAt result adjusted_music music_position
  let result3 := if music_continue_after_speech > 0 then
      result2 ++ pySliceQ adjusted_music ((result2.length : ℚ) - music_position)
        ((result2.length : ℚ) - music_position + music_continue_after_speech * 1000)
    else result2
  apply_fades result3 fade_in_duration fade_out_duration

end MainPy

section Lemmas

theorem silent_length (n : ℕ) : (silent n).length = n := by
  simp [silent]

theorem applyGain_length (g : ℚ) (a : AudioSeg) : (applyGain g a).length = a.length := by
  simp [applyGain]

theorem normalizeSeg_length (a : AudioSeg) : (normalizeSeg a).length = a.length := by
  unfold normalizeSeg
  split <;> simp [applyGain_length]

theorem applyGain_one (a : AudioSeg) : applyGain 1 a = a := by
  simp [applyGain]

theorem overlayAt_length (base over : AudioSeg) (pos : ℕ) :
    (overlayAt base over pos).length = base.length := by
  simp [overlayAt, silent]
  omega

theorem fadeIn_length (d : ℕ) (a : AudioSeg) : (fadeIn d a).length = a.length := by
  simp [fadeIn]

theorem fadeOut_length (d : ℕ) (a : AudioSeg) : (fadeOut d a).length = a.length := by
  simp [fadeOut]

theorem apply_fades_length (a : AudioSeg) (fi fo : ℕ) :
    (apply_fades a fi fo).length = a.length := by
  unfold apply_fades
  split <;> split <;> simp [fadeIn_length, fadeOut_length]

theorem repeatSeg_length (a : AudioSeg) (k : ℕ) : (repeatSeg a k).length = k * a.length := by
  induction k with
  | zero => simp [repeatSeg]
  | succ n ih =>
      simp only [repeatSeg, List.replicate_succ, List.flatten_cons, List.length_append] at ih ⊢
      rw [ih, Nat.succ_mul, Nat.add_comm]

theorem pySliceQ_full (a : AudioSeg) : pySliceQ a 0 ((a.length : ℚ)) = a := by
  unfold pySliceQ
  have h0 : ¬ ((0 : ℚ) < 0) := lt_irrefl 0
  have h1 : ¬ ((a.length : ℚ) < 0) := not_lt.mpr (by positivity)
  simp only [h0, h1, if_false, Int.floor_zero, Int.floor_natCast,
    min_eq_left (Int.natCast_nonneg a.length), min_self, Int.toNat_zero, List.drop_zero,
    Int.sub_zero, Int.toNat_natCast, List.take_length]

theorem pySliceQ_of_ge (a : AudioSeg) (s e : ℚ) (h : (a.length : ℚ) ≤ s) (h0 : 0 ≤ s) :
    pySliceQ a s e = [] := by
  unfold pySliceQ
  have h1 : ¬ s < 0 := by linarith
  have h2 : (a.length : ℤ) ≤ ⌊s⌋ := by exact_mod_cast Int.le_floor.mpr (by exact_mod_cast h)
  have h3 : min ⌊s⌋ (a.length : ℤ) = (a.length : ℤ) := min_eq_right h2
  simp only [h1, if_false, h3]
  simp [List.drop_length]

theorem sampleAt_nil (i : ℕ) : sampleAt [] i = 0 := rfl

theorem sampleAt_of_le (a : AudioSeg) (i : ℕ) (h : a.length ≤ i) : sampleAt a i = 0 :=
  List.getD_eq_default a 0 h

theorem sampleAt_append (a b : AudioSeg) (i : ℕ) :
    sampleAt (a ++ b) i = if i < a.length then sampleAt a i else sampleAt b (i - a.length) := by
  by_cases h : i < a.length
  · rw [if_pos h]
    exact List.getD_append _ _ _ _ h
  · rw [if_neg h]
    exact List.getD_append_right _ _ _ _ (Nat.le_of_not_lt h)

theorem sampleAt_replicate (n : ℕ) (c : ℚ) (i : ℕ) :
    sampleAt (List.replicate n c) i = if i < n then c else 0 := by
  induction n generalizing i with
  | zero => simp [sampleAt]
  | succ k ih =>
      cases i with
      | zero => simp [sampleAt, List.replicate_succ]
      | succ j => simpa [sampleAt, List.replicate_succ] using ih j

theorem sampleAt_silent (n i : ℕ) : sampleAt (silent n) i = 0 := by
  simp [silent, sampleAt_replicate]

theorem sampleAt_take (a : AudioSeg) (n i : ℕ) :
    sampleAt (a.take n) i = if i < n then sampleAt a i else 0 := by
  induction a generalizing n i with
  | nil => simp [sampleAt]
  | cons x xs ih =>
      cases n with
      | zero => simp [sampleAt]
      | succ m =>
          cases i with
          | zero => simp [sampleAt]
          | succ j =>
              simpa [sampleAt, Nat.succ_lt_succ_iff] using ih m j

theorem sampleAt_zipWith (f : ℚ → ℚ → ℚ) :
    ∀ (a b : AudioSeg) (i : ℕ), i < a.length → a.length ≤ b.length →
      sampleAt (List.zipWith f a b) i = f (sampleAt a i) (sampleAt b i)
  | [], _, i, hi, _ => absurd hi (by simp)
  | _ :: _, [], _, _, hab => absurd hab (by simp)
  | x :: xs, y :: ys, 0, _, _ => by simp [sampleAt]
  | x :: xs, y :: ys, i + 1, hi, hab => by
      simpa [sampleAt] using
        sampleAt_zipWith f xs ys i (by simpa using hi) (by simpa using hab)

theorem sampleAt_overlayAt (base over : AudioSeg) (pos i : ℕ) (hi : i < base.length) :
    sampleAt (overlayAt base over pos) i
      = sampleAt base i + (if pos ≤ i then sampleAt over (i - pos) else 0) := by
  unfold overlayAt
  rw [sampleAt_zipWith _ base _ i hi (by simp [silent]; omega)]
  congr 1
  rw [sampleAt_append, sampleAt_append]
  simp only [List.length_append, silent_length]
  by_cases h1 : i < pos
  · have h2 : i < pos + over.length := by omega
    simp [h1, h2, Nat.not_le.mpr h1, sampleAt_silent]
  · by_cases h3 : i < pos + over.length
    · simp [h1, h3, Nat.le_of_not_lt h1]
    · have h4 : over.length ≤ i - pos := by omega
      simp [h1, h3, Nat.le_of_not_lt h1, sampleAt_silent, sampleAt_of_le over _ h4]

end Lemmas

section MoreLemmas

theorem sampleAt_applyGain (g : ℚ) (a : AudioSeg) (i : ℕ) :
    sampleAt (applyGain g a) i = sampleAt a i * g := by
  have h := List.getD_map (n := i) (l := a) (fun x => x * g) (d := 0)
  simpa [sampleAt, applyGain] using h

theorem sampleAt_range_map (f : ℕ → ℚ) (n i : ℕ) (h : i < n) :
    sampleAt ((List.range n).map f) i = f i := by
  have hlen : i < ((List.range n).map f).length := by simpa using h
  rw [sampleAt, List.getD_eq_getElem _ _ hlen]
  simp

theorem sampleAt_fadeIn (d : ℕ) (a : AudioSeg) (i : ℕ) (hi : i < a.length) :
    sampleAt (fadeIn d a) i
      = sampleAt a i * (if i < d then ((i : ℚ) + 1) / d else 1) := by
  unfold fadeIn
  rw [sampleAt_zipWith _ a _ i hi (by simp), sampleAt_range_map _ _ _ hi]

theorem sampleAt_fadeOut (d : ℕ) (a : AudioSeg) (i : ℕ) (hi : i < a.length) :
    sampleAt (fadeOut d a) i
      = sampleAt a i * (if a.length - d ≤ i then ((a.length - i : ℕ) : ℚ) / d else 1) := by
  unfold fadeOut
  rw [sampleAt_zipWith _ a _ i hi (by simp), sampleAt_range_map _ _ _ hi]

theorem loopToCover_of_ge (s m : AudioSeg) (h : ¬ m.length < s.length) :
    OverlayAudio.loopToCover s m = some m := by
  simp [OverlayAudio.loopToCover, h]

theorem loopToCover_of_empty (s m : AudioSeg) (hm : m.length = 0) (hs : 0 < s.length) :
    OverlayAudio.loopToCover s m = none := by
  simp [OverlayAudio.loopToCover, hm, hs]

theorem length_le_succ_div_mul (s m : ℕ) (hm : m ≠ 0) : s ≤ (s / m + 1) * m := by
  have h2 := Nat.mod_lt s (Nat.pos_of_ne_zero hm)
  calc s = m * (s / m) + s % m := (Nat.div_add_mod s m).symm
    _ ≤ m * (s / m) + m := by omega
    _ = (s / m + 1) * m := by ring

theorem loopToCover_of_lt (s m : AudioSeg) (h : m.length < s.length) (hm : m.length ≠ 0) :
    OverlayAudio.loopToCover s m
      = some ((repeatSeg m (s.length / m.length + 1)).take s.length) := by
  simp [OverlayAudio.loopToCover, h, hm]

theorem loopToCover_length (s m : AudioSeg) (hm : m.length ≠ 0) :
    ∃ r, OverlayAudio.loopToCover s m = some r ∧ r.length = max m.length s.length := by
  by_cases h : m.length < s.length
  · refine ⟨_, loopToCover_of_lt s m h hm, ?_⟩
    rw [List.length_take, repeatSeg_length]
    have := length_le_succ_div_mul s.length m.length hm
    omega
  · exact ⟨m, loopToCover_of_ge s m h, by omega⟩

end MoreLemmas

section PipelineLemmas

/-- With `speech_start = 0` and `speech_end` absent the trim keeps the whole
buffer, for any buffer. -/
theorem trim_default (a : AudioSeg) :
    pySliceQ a ((0 : ℚ) * 1000) (pyEndBound a none) = a := by
  rw [show ((0 : ℚ) * 1000) = 0 by ring]
  exact pySliceQ_full a

/-- Output duration of `overlay_audio` (`src/overlay_audio.py`) with default
trims and overlay starts: the mixed buffer is the reconciled music (length
`max |music| |speech|`) truncated to `|speech| + 1000·continue`. -/
theorem OverlayAudio.overlay_audio_length (s m : AudioSeg) (g : ℚ) (c fi fo : ℕ)
    (hm : m ≠ []) :
    (OverlayAudio.overlay_audio s m g 0 none 0 none 0 0 c fi fo).map List.length
      = some (min (s.length + c * 1000) (max m.length s.length)) := by
  unfold OverlayAudio.overlay_audio
  simp only [trim_default, OverlayAudio.adjust_background_music, Nat.lt_irrefl, if_false,
    gt_iff_lt]
  have hm0 : (applyGain g m).length ≠ 0 := by
    rw [applyGain_length]
    simpa using hm
  obtain ⟨r, hr, hlen⟩ := loopToCover_length (normalizeSeg s) (applyGain g m) hm0
  rw [hr]
  have hge : ¬ r.length < (normalizeSeg s).length := by
    rw [hlen]
    omega
  simp only [Option.map_some', hge, if_false]
  rw [apply_fades_length, List.length_take, overlayAt_length, hlen]
  simp only [normalizeSeg_length, applyGain_length]

/-- Output duration of `overlay_audio` (`src/main.py`) with default trims,
no overlay start and no music continuation: the length of the speech. -/
theorem MainPy.overlay_audio_length_zero (s m : AudioSeg) (g : ℚ) (fi fo : ℕ) :
    (MainPy.overlay_audio s m g 0 none 0 none 0 0 0 fi fo).length = s.length := by
  unfold MainPy.overlay_audio
  simp only [trim_default, MainPy.adjust_background_music, Nat.mul_zero, Nat.zero_mul,
    Nat.lt_irrefl, if_false, gt_iff_lt]
  rw [apply_fades_length, overlayAt_length]
  simp [silent]

end PipelineLemmas

section EndBoundLemmas

theorem pyEndBound_full (a : AudioSeg) :
    pyEndBound a (some ((a.length : ℚ) / 1000)) = pyEndBound a none := by
  by_cases h : (a.length : ℚ) / 1000 = 0
  · simp [pyEndBound, h]
  · simp [pyEndBound, h, div_mul_cancel₀ _ (by norm_num : (1000 : ℚ) ≠ 0)]

theorem pyEndBound_zero (a : AudioSeg) : pyEndBound a (some 0) = pyEndBound a none := by
  simp [pyEndBound]

end EndBoundLemmas

/-- C6: `apply_fades` with `fadeInDuration = 0` and `fadeOutDuration = 0` is the
identity: both guards `if duration > 0` fail, so the buffer is returned
sample-for-sample unchanged. -/
theorem c6_apply_fades_zero_is_identity (a : AudioSeg) : apply_fades a 0 0 = a := rfl

/-- C7: in both variants, omitting `speechEnd` produces exactly the same output
as passing `speechEnd = len(speech_buffer_ms)/1000` seconds: the trim bound is
the full speech length in either case. -/
theorem c7_speech_end_default (speech music : AudioSeg) (g ss ms : ℚ) (me : Option ℚ)
    (sos mos c fi fo : ℕ) :
    OverlayAudio.overlay_audio speech music g ss (some ((speech.length : ℚ) / 1000))
        ms me sos mos c fi fo
      = OverlayAudio.overlay_audio speech music g ss none ms me sos mos c fi fo ∧
    MainPy.overlay_audio speech music g ss (some ((speech.length : ℚ) / 1000))
        ms me sos mos c fi fo
      = MainPy.overlay_audio speech music g ss none ms me sos mos c fi fo := by
  constructor
  · unfold OverlayAudio.overlay_audio
    rw [pyEndBound_full]
  · unfold MainPy.overlay_audio
    rw [pyEndBound_full]

/-- C9: the overlay pipeline of either variant is a deterministic pure function
of the two input buffers and the parameters: equal inputs give equal outputs
(equal duration and equal sample content). -/
theorem c9_pipeline_deterministic (s1 s2 m1 m2 : AudioSeg) (g1 g2 ss1 ss2 ms1 ms2 : ℚ)
    (se1 se2 me1 me2 : Option ℚ) (sos1 sos2 mos1 mos2 c1 c2 fi1 fi2 fo1 fo2 : ℕ)
    (hs : s1 = s2) (hm : m1 = m2) (hg : g1 = g2) (hss : ss1 = ss2) (hse : se1 = se2)
    (hms : ms1 = ms2) (hme : me1 = me2) (hsos : sos1 = sos2) (hmos : mos1 = mos2)
    (hc : c1 = c2) (hfi : fi1 = fi2) (hfo : fo1 = fo2) :
    OverlayAudio.overlay_audio s1 m1 g1 ss1 se1 ms1 me1 sos1 mos1 c1 fi1 fo1
      = OverlayAudio.overlay_audio s2 m2 g2 ss2 se2 ms2 me2 sos2 mos2 c2 fi2 fo2 ∧
    MainPy.overlay_audio s1 m1 g1 ss1 se1 ms1 me1 sos1 mos1 c1 fi1 fo1
      = MainPy.overlay_audio s2 m2 g2 ss2 se2 ms2 me2 sos2 mos2 c2 fi2 fo2 := by
  subst hs hm hg hss hse hms hme hsos hmos hc hfi hfo
  exact ⟨rfl, rfl⟩

theorem c9_pipeline_deterministic_witness :
    OverlayAudio.overlay_audio [(1 : ℚ)] [(2 : ℚ)] 1 0 none 0 none 0 0 0 0 0
      = OverlayAudio.overlay_audio [(1 : ℚ)] [(2 : ℚ)] 1 0 none 0 none 0 0 0 0 0 ∧
    MainPy.overlay_audio [(1 : ℚ)] [(2 : ℚ)] 1 0 none 0 none 0 0 0 0 0
      = MainPy.overlay_audio [(1 : ℚ)] [(2 : ℚ)] 1 0 none 0 none 0 0 0 0 0 :=
  c9_pipeline_deterministic [(1 : ℚ)] [(1 : ℚ)] [(2 : ℚ)] [(2 : ℚ)] 1 1 0 0 0 0
    none none none none 0 0 0 0 0 0 0 0 0 0 rfl rfl rfl rfl rfl rfl rfl rfl rfl rfl rfl rfl

/-- C10: passing `speech_end = 0` (and `music_end = 0`) behaves exactly like
omitting the parameter: the Python ternary tests the value for truthiness, and
`0` is falsy, so the trim keeps the full remaining buffer in both variants. -/
theorem c10_zero_end_is_falsy (speech music : AudioSeg) (g ss ms : ℚ)
    (sos mos c fi fo : ℕ) :
    OverlayAudio.overlay_audio speech music g ss (some 0) ms (some 0) sos mos c fi fo
      = OverlayAudio.overlay_audio speech music g ss none ms none sos mos c fi fo ∧
    MainPy.overlay_audio speech music g ss (some 0) ms (some 0) sos mos c fi fo
      = MainPy.overlay_audio speech music g ss none ms none sos mos c fi fo := by
  constructor
  · unfold OverlayAudio.overlay_audio
    rw [pyEndBound_zero, pyEndBound_zero]
  · unfold MainPy.overlay_audio
    rw [pyEndBound_zero, pyEndBound_zero]

/-- C2: with the source functions' default parameters (no trims, no overlay
starts, `music_continue_after_speech = 0`, no fades) and non-empty inputs, both
variants return a buffer of exactly `len(speech) + musicContinueAfterSpeech*1000
= len(speech) + 0` milliseconds. -/
theorem c2_default_duration (s m : AudioSeg) (g : ℚ) (hs : s ≠ []) (hm : m ≠ []) :
    (OverlayAudio.overlay_audio s m g 0 none 0 none 0 0 0 0 0).map List.length
      = some (s.length + 0 * 1000) ∧
    (MainPy.overlay_audio s m g 0 none 0 none 0 0 0 0 0).length = s.length + 0 * 1000 := by
  constructor
  · rw [OverlayAudio.overlay_audio_length s m g 0 0 0 hm]
    have : s.length ≤ max m.length s.length := Nat.le_max_right _ _
    congr 1
    omega
  · rw [MainPy.overlay_audio_length_zero]
    omega

theorem c2_default_duration_witness :
    ([(1 : ℚ)] ≠ ([] : AudioSeg)) ∧ ([(2 : ℚ)] ≠ ([] : AudioSeg)) ∧
    ((OverlayAudio.overlay_audio [(1 : ℚ)] [(2 : ℚ)] 1 0 none 0 none 0 0 0 0 0).map
        List.length = some (([(1 : ℚ)] : AudioSeg).length + 0 * 1000) ∧
      (MainPy.overlay_audio [(1 : ℚ)] [(2 : ℚ)] 1 0 none 0 none 0 0 0 0 0).length
        = ([(1 : ℚ)] : AudioSeg).length + 0 * 1000) :=
  ⟨by simp, by simp, c2_default_duration [(1 : ℚ)] [(2 : ℚ)] 1 (by simp) (by simp)⟩

/-- C4 is false as stated: in `src/overlay_audio.py` the speech is
unconditionally normalized by `adjust_background_music` before the mix, so a
speech buffer whose peak is below the reference level has its amplitude
changed (here `[1/2]` becomes `[1]`). -/
theorem c4_counterexample :
    (OverlayAudio.adjust_background_music [(1 : ℚ) / 2] [(1 : ℚ)] 1).1
      ≠ [(1 : ℚ) / 2] := by
  have hpeak : peak [(1 : ℚ) / 2] = 1 / 2 := by
    unfold peak
    simp only [List.foldr_cons, List.foldr_nil]
    rw [abs_of_pos (by norm_num : (0 : ℚ) < 1 / 2),
      max_eq_left (by norm_num : (0 : ℚ) ≤ 1 / 2)]
  unfold OverlayAudio.adjust_background_music
  simp only [normalizeSeg, hpeak]
  norm_num [applyGain]

/-- C5 is false as stated: with a non-empty speech buffer and a music buffer
that is empty after trimming, the length-reconciliation step of
`src/overlay_audio.py` evaluates `len(speech) // len(music)` with
`len(music) = 0` and raises `ZeroDivisionError` (modelled by `none`). -/
theorem c5_counterexample :
    OverlayAudio.overlay_audio [(1 : ℚ)] [] 1 0 none 0 none 0 0 0 0 0 = none := by
  unfold OverlayAudio.overlay_audio
  rw [trim_default, trim_default]
  simp only [OverlayAudio.adjust_background_music, gt_iff_lt, lt_self_iff_false, if_false]
  rw [loopToCover_of_empty _ _ (by simp [applyGain])
    (by rw [normalizeSeg_length]; simp)]
  rfl

/-- Output duration of `overlay_audio` (`src/main.py`) with default trims and
no overlay start, when the music ends at or before the speech does: the tail
slice `adjusted_music[len(result):len(result)+c*1000]` is empty, so the output
has exactly the speech's length no matter what `music_continue_after_speech`
asks for. -/
theorem MainPy.overlay_audio_length_tail_cut (s m : AudioSeg) (g : ℚ) (c fi fo : ℕ)
    (h : m.length ≤ s.length) :
    (MainPy.overlay_audio s m g 0 none 0 none 0 0 c fi fo).length = s.length := by
  unfold MainPy.overlay_audio
  rw [trim_default, trim_default]
  simp only [MainPy.adjust_background_music, Nat.zero_mul, silent, List.replicate_zero,
    List.nil_append, Nat.cast_zero, sub_zero, gt_iff_lt]
  by_cases hc : 0 < c
  · rw [if_pos hc, apply_fades_length, List.length_append, overlayAt_length,
      pySliceQ_of_ge _ _ _ (by rw [applyGain_length]; exact_mod_cast h) (by positivity)]
    simp
  · rw [if_neg hc, apply_fades_length, overlayAt_length]

/-- C1: the spec's scenario (10 s speech, 3 s music, `speechOverlayStart = 0`,
`musicContinueAfterSpeech = 5`, no fades) does NOT produce a 15 s output: in
`src/overlay_audio.py` the music is looped and truncated to exactly the speech
length before the mix, so the final `combined[:combined_duration]` cannot
extend the 10 s mix to 15 s (Python slicing never lengthens a sequence), and in
`src/main.py` the appended tail slice `music[10000:15000]` of a 3 s music
buffer is empty.  Both variants return exactly 10 s. -/
theorem c1_scenario_output_is_ten_seconds (g : ℚ) :
    (OverlayAudio.overlay_audio (List.replicate 10000 (1 : ℚ)) (List.replicate 3000 (1 : ℚ))
        g 0 none 0 none 0 0 5 0 0).map List.length = some 10000 ∧
    (MainPy.overlay_audio (List.replicate 10000 (1 : ℚ)) (List.replicate 3000 (1 : ℚ))
        g 0 none 0 none 0 0 5 0 0).length = 10000 := by
  constructor
  · rw [OverlayAudio.overlay_audio_length _ _ _ _ _ _
      (by intro hnil; have h2 := congrArg List.length hnil
          simp only [List.length_replicate, List.length_nil] at h2
          omega)]
    simp only [List.length_replicate]
    congr 1
  · rw [MainPy.overlay_audio_length_tail_cut _ _ _ _ _ _
      (by simp only [List.length_replicate]; omega)]
    exact List.length_replicate 10000 1

/-- C5 (amended): with default trims and no overlay-start padding, the
`src/overlay_audio.py` pipeline completes exactly when it is not the case that
the trimmed music is empty while the trimmed speech is non-empty; in that
remaining case the length-reconciliation step evaluates
`len(speech) // len(music)` with `len(music) = 0` and raises
`ZeroDivisionError` instead of returning a degenerate output.  (The
`src/main.py` variant never loops the music and is total by construction.) -/
theorem c5_amended_completion_iff (s m : AudioSeg) (g : ℚ) (c fi fo : ℕ) :
    (OverlayAudio.overlay_audio s m g 0 none 0 none 0 0 c fi fo).isSome
      ↔ ¬(m = [] ∧ s ≠ []) := by
  unfold OverlayAudio.overlay_audio
  rw [trim_default, trim_default]
  simp only [OverlayAudio.adjust_background_music, gt_iff_lt, lt_self_iff_false, if_false]
  by_cases hm : m = []
  · subst hm
    by_cases hs : s = []
    · subst hs
      rw [loopToCover_of_ge _ _ (by simp [applyGain, normalizeSeg_length])]
      simp
    · rw [loopToCover_of_empty _ _ (by simp [applyGain])
        (by rw [normalizeSeg_length]; exact List.length_pos.mpr hs)]
      simp [hs]
  · obtain ⟨r, hr, _⟩ := loopToCover_length (normalizeSeg s) (applyGain g m)
      (by rw [applyGain_length]; simpa using hm)
    rw [hr]
    simp [hm]

/-- Sample characterization of `apply_fades` for every duration combination:
sample `i` of the output is the input sample multiplied by the fade-in and
fade-out coefficients (each `1` when its fade is off or `i` is outside its
window). -/
theorem sampleAt_apply_fades (a : AudioSeg) (fi fo : ℕ) (i : ℕ) (hi : i < a.length) :
    sampleAt (apply_fades a fi fo) i
      = sampleAt a i * fadeInCoeff fi i * fadeOutCoeff fo a.length i := by
  unfold apply_fades
  by_cases hfi : 0 < fi <;> by_cases hfo : 0 < fo <;>
    simp only [gt_iff_lt, hfi, hfo, if_true, if_false, ite_true, ite_false]
  · rw [sampleAt_fadeOut _ _ _ (by rw [fadeIn_length]; exact hi), fadeIn_length,
      sampleAt_fadeIn _ _ _ hi]
    simp only [fadeInCoeff, fadeOutCoeff, hfi, hfo, true_and]
  · rw [sampleAt_fadeIn _ _ _ hi]
    simp only [fadeInCoeff, fadeOutCoeff, hfi, hfo, true_and, false_and, if_false, mul_one]
  · rw [sampleAt_fadeOut _ _ _ hi]
    simp only [fadeInCoeff, fadeOutCoeff, hfi, hfo, true_and, false_and, if_false, mul_one]
  · simp only [fadeInCoeff, fadeOutCoeff, hfi, hfo, false_and, if_false, mul_one]

/-- C8: `apply_fades` is total and length-preserving for every buffer and every
pair of fade durations (no error, no negative-length ramp), and whenever the
requested fade-in — or, independently, the requested fade-out — duration covers
the whole remaining buffer (`duration * 1000 ≥ len`), that ramp is applied over
the entire available remainder: every output sample inside the buffer carries
the corresponding full-width ramp coefficient, with the other fade contributing
its own (possibly trivial) coefficient. -/
theorem c8_fades_span_whole_buffer (a : AudioSeg) (fi fo : ℕ) :
    (apply_fades a fi fo).length = a.length ∧
    (0 < fi → a.length ≤ fi * 1000 → ∀ i, i < a.length →
      sampleAt (apply_fades a fi fo) i
        = sampleAt a i * (((i : ℚ) + 1) / ((fi * 1000 : ℕ) : ℚ))
            * fadeOutCoeff fo a.length i) ∧
    (0 < fo → a.length ≤ fo * 1000 → ∀ i, i < a.length →
      sampleAt (apply_fades a fi fo) i
        = sampleAt a i * fadeInCoeff fi i
            * (((a.length - i : ℕ) : ℚ) / ((fo * 1000 : ℕ) : ℚ))) := by
  refine ⟨apply_fades_length a fi fo, fun hfi hlen i hi => ?_, fun hfo hlen i hi => ?_⟩
  · rw [sampleAt_apply_fades a fi fo i hi]
    congr 1
    congr 1
    rw [fadeInCoeff, if_pos ⟨hfi, lt_of_lt_of_le hi hlen⟩]
  · rw [sampleAt_apply_fades a fi fo i hi]
    congr 1
    rw [fadeOutCoeff, if_pos ⟨hfo, by omega⟩]

theorem c8_fades_span_whole_buffer_witness :
    (apply_fades [(2 : ℚ), 4] 1 0).length = ([(2 : ℚ), 4] : AudioSeg).length ∧
    sampleAt (apply_fades [(2 : ℚ), 4] 1 0) 0
      = sampleAt [(2 : ℚ), 4] 0 * (((0 : ℚ) + 1) / ((1 * 1000 : ℕ) : ℚ))
          * fadeOutCoeff 0 ([(2 : ℚ), 4] : AudioSeg).length 0 ∧
    sampleAt (apply_fades [(2 : ℚ), 4] 0 1) 0
      = sampleAt [(2 : ℚ), 4] 0 * fadeInCoeff 0 0
          * (((([(2 : ℚ), 4] : AudioSeg).length - 0 : ℕ) : ℚ) / ((1 * 1000 : ℕ) : ℚ)) :=
  ⟨(c8_fades_span_whole_buffer [(2 : ℚ), 4] 1 0).1,
    (c8_fades_span_whole_buffer [(2 : ℚ), 4] 1 0).2.1 Nat.one_pos (by norm_num) 0
      (by norm_num),
    (c8_fades_span_whole_buffer [(2 : ℚ), 4] 0 1).2.2 Nat.one_pos (by norm_num) 0
      (by norm_num)⟩

theorem peak_cons (x : ℚ) (l : AudioSeg) : peak (x :: l) = max |x| (peak l) := rfl

theorem peak_replicate (n : ℕ) (c : ℚ) (hc : 0 ≤ c) :
    peak (List.replicate n c) = if n = 0 then 0 else c := by
  induction n with
  | zero => rfl
  | succ k ih =>
      rw [List.replicate_succ, peak_cons, ih, abs_of_nonneg hc]
      by_cases hk : k = 0
      · simp [hk, max_eq_left hc]
      · simp [hk, max_self]

theorem normalizeSeg_of_peak_one (a : AudioSeg) (h : peak a = 1) : normalizeSeg a = a := by
  simp [normalizeSeg, h, applyGain_one]

theorem apply_fades_zero (a : AudioSeg) : apply_fades a 0 0 = a := rfl

/-- Run of `overlay_audio` (`src/overlay_audio.py`) with default trims, unit
gain, speech already at the reference peak, a positive speech overlay start
and music long enough that no looping happens: the output is the music with
the padded speech mixed in at `speech_overlay_start * 1000` — so the speech is
shifted by the pad AND by the overlay position — truncated to the padded
speech length plus the continuation. -/
theorem OverlayAudio.overlay_audio_no_loop_run (s m : AudioSeg) (sos c fi fo : ℕ)
    (hs : peak s = 1) (hsos : 0 < sos) (hm : sos * 1000 + s.length ≤ m.length) :
    OverlayAudio.overlay_audio s m 1 0 none 0 none sos 0 c fi fo
      = some (apply_fades ((overlayAt m (silent (sos * 1000) ++ s) (sos * 1000)).take
          ((silent (sos * 1000) ++ s).length + c * 1000)) fi fo) := by
  unfold OverlayAudio.overlay_audio
  rw [trim_default, trim_default]
  simp only [OverlayAudio.adjust_background_music, gt_iff_lt, lt_self_iff_false, if_false,
    if_pos hsos]
  rw [normalizeSeg_of_peak_one s hs, applyGain_one]
  rw [loopToCover_of_ge _ _
    (by rw [List.length_append, silent_length]; omega)]
  rw [Option.map_some']
  rw [if_neg (by rw [List.length_append, silent_length]; omega)]

theorem c3_run :
    OverlayAudio.overlay_audio (List.replicate 5000 (1 : ℚ)) (List.replicate 20000 (1 : ℚ))
        1 0 none 0 none 2 0 5 0 0
      = some ((overlayAt (List.replicate 20000 (1 : ℚ))
          (silent 2000 ++ List.replicate 5000 (1 : ℚ)) 2000).take 12000) := by
  rw [OverlayAudio.overlay_audio_no_loop_run _ _ 2 5 0 0
    (by rw [peak_replicate 5000 1 zero_le_one]; norm_num) (by norm_num)
    (by simp only [List.length_replicate]; omega)]
  rw [apply_fades_zero]
  norm_num [List.length_append, silent_length, List.length_replicate]

theorem c3_sample_formula (i : ℕ) (hi : i < 12000) :
    (OverlayAudio.overlay_audio (List.replicate 5000 (1 : ℚ)) (List.replicate 20000 (1 : ℚ))
        1 0 none 0 none 2 0 5 0 0).map (fun o => (o.length, sampleAt o i))
      = some (12000, if 4000 ≤ i ∧ i < 9000 then 2 else 1) := by
  rw [c3_run, Option.map_some']
  simp only [Option.some.injEq, Prod.mk.injEq]
  refine ⟨?_, ?_⟩
  · rw [List.length_take, overlayAt_length, List.length_replicate]
    omega
  · rw [sampleAt_take, if_pos hi,
      sampleAt_overlayAt _ _ _ _ (by rw [List.length_replicate]; omega),
      sampleAt_replicate, if_pos (by omega : i < 20000),
      sampleAt_append, silent_length, sampleAt_silent, sampleAt_replicate]
    split_ifs <;> first | (exfalso; omega) | norm_num

/-- C3 is false as stated: in the scenario `speechOverlayStart = 2`, 5 s speech,
20 s music (unit-valued buffers, unit gain, `musicContinueAfterSpeech = 5`), a
speech-audible sample of the output reads `2` (music + speech) and a music-only
sample reads `1`.  The claim predicts speech audible exactly on `[2 s, 7 s)` —
samples `(2500, 5000, 8000)` would read `(2, 2, 1)` — but the code produces
`(1, 2, 2)`: the speech is silent at 2.5 s and still audible at 8 s, because
`overlay_audio` (`src/overlay_audio.py`) shifts the speech by the leading pad
AND by the overlay position. -/
theorem c3_counterexample :
    (OverlayAudio.overlay_audio (List.replicate 5000 (1 : ℚ)) (List.replicate 20000 (1 : ℚ))
        1 0 none 0 none 2 0 5 0 0).map
      (fun o => (sampleAt o 2500, sampleAt o 5000, sampleAt o 8000)) = some (1, 2, 2) := by
  have h1 := c3_sample_formula 2500 (by norm_num)
  have h2 := c3_sample_formula 5000 (by norm_num)
  have h3 := c3_sample_formula 8000 (by norm_num)
  rw [c3_run, Option.map_some'] at h1 h2 h3 ⊢
  simp only [Option.some.injEq, Prod.mk.injEq] at h1 h2 h3 ⊢
  norm_num at h1 h2 h3
  exact ⟨h1.2, h2.2, h3.2⟩

/-- C3 (amended): in the `speechOverlayStart = 2`, 5 s speech, 20 s music run
of `overlay_audio` (`src/overlay_audio.py`, with `musicContinueAfterSpeech=5`,
unit buffers and unit gain), the output is 12 s long; the music (sample value
`1`) is audible over the whole span, and the speech contributes exactly on
`[4 s, 9 s)` (sample value `2`) — shifted 2 s later than the claim states,
because the leading silence pad and the overlay position are both applied —
with the music-only tail occupying `[9 s, 12 s)`. -/
theorem c3_amended_mixed_region (i : ℕ) (hi : i < 12000) :
    (OverlayAudio.overlay_audio (List.replicate 5000 (1 : ℚ)) (List.replicate 20000 (1 : ℚ))
        1 0 none 0 none 2 0 5 0 0).map (fun o => (o.length, sampleAt o i))
      = some (12000, if 4000 ≤ i ∧ i < 9000 then 2 else 1) :=
  c3_sample_formula i hi

theorem c3_amended_mixed_region_witness :
    5000 < 12000 ∧
    (OverlayAudio.overlay_audio (List.replicate 5000 (1 : ℚ)) (List.replicate 20000 (1 : ℚ))
        1 0 none 0 none 2 0 5 0 0).map (fun o => (o.length, sampleAt o 5000))
      = some (12000, if 4000 ≤ 5000 ∧ 5000 < 9000 then 2 else 1) :=
  ⟨by norm_num, c3_amended_mixed_region 5000 (by norm_num)⟩

theorem peak_attained (l : AudioSeg) : peak l = 0 ∨ ∃ x ∈ l, |x| = peak l := by
  induction l with
  | nil => exact Or.inl rfl
  | cons x xs ih =>
      rw [peak_cons]
      rcases le_total (peak xs) |x| with h | h
      · exact Or.inr ⟨x, List.mem_cons_self x xs, (max_eq_left h).symm⟩
      · rw [max_eq_right h]
        rcases ih with h0 | ⟨y, hy, hpy⟩
        · exact Or.inl h0
        · exact Or.inr ⟨y, List.mem_cons_of_mem x hy, hpy⟩

/-- `normalizeSeg` fixes a buffer exactly when its peak is already at the
reference level or the buffer is silent/empty (zero peak, which the
normalization's guard leaves untouched). -/
theorem normalizeSeg_eq_self_iff (s : AudioSeg) :
    normalizeSeg s = s ↔ peak s = 0 ∨ peak s = 1 := by
  constructor
  · intro h
    by_cases h0 : peak s = 0
    · exact Or.inl h0
    right
    rcases peak_attained s with hp | ⟨x, hx, hpx⟩
    · exact absurd hp h0
    have hx0 : x ≠ 0 := by
      intro hz
      rw [hz, abs_zero] at hpx
      exact h0 hpx.symm
    simp only [normalizeSeg, if_neg h0] at h
    obtain ⟨i, hi, hgi⟩ := List.mem_iff_getElem.mp hx
    have hmul : x * (1 / peak s) = x := by
      have h2 := congrArg (fun l : AudioSeg => l[i]?) h
      simp only [applyGain, List.getElem?_map, List.getElem?_eq_getElem hi, hgi,
        Option.map_some', Option.some.injEq] at h2
      exact h2
    have h3 : (1 : ℚ) / peak s = 1 := mul_left_cancel₀ hx0 (by rw [mul_one]; exact hmul)
    rw [div_eq_one_iff_eq h0] at h3
    exact h3.symm
  · rintro (h | h)
    · simp only [normalizeSeg, if_pos h]
    · exact normalizeSeg_of_peak_one s h

/-- C4 (amended): the gain-adjustment step changes only the music in the
`src/main.py` variant; in the `src/overlay_audio.py` variant it additionally
normalizes the speech unconditionally (there is no off-by-default
`normalizeSpeech` option), so there the speech entering the mix is
amplitude-identical to the trimmed speech exactly when the trimmed speech is
already at the reference peak, or is silent/empty — zero peak, which the
normalization's guard leaves untouched. -/
theorem c4_amended (s m : AudioSeg) (g : ℚ) :
    MainPy.adjust_background_music s m g = applyGain g m ∧
    (OverlayAudio.adjust_background_music s m g).2 = applyGain g m ∧
    (OverlayAudio.adjust_background_music s m g).1 = normalizeSeg s ∧
    ((OverlayAudio.adjust_background_music s m g).1 = s ↔ peak s = 0 ∨ peak s = 1) :=
  ⟨rfl, rfl, rfl, normalizeSeg_eq_self_iff s⟩
